import Mathlib

/-!
# ARP datagram codec, response classifier and source-address resolver

A shallow embedding of `arp_datagram.go` and `netutils.go` (package `arping`).

* Go's `byte`/`uint8` and `uint16` are `Fin 256` and `Fin 65536`; every
  conversion that truncates is written with an explicit `% 2 ^ w`.
* A `[]byte` is a `List Byte`; the nil slice and the empty slice are both `[]`
  (`len`, `append`, `bytes.Equal` and `Buffer.Write` do not tell them apart).
* `bytes.Buffer` is modelled by its unread bytes, threaded explicitly through
  the reads and writes in the order the source performs them.
* The library routines the source calls (`encoding/binary`, `bytes`, `net`)
  are embedded from their Go definitions, under their Go names.
-/

namespace arping

/-! ## Machine integers and byte slices -/

/-- Go `byte` (alias of `uint8`). -/
abbrev Byte := Fin 256

/-- Go `uint8`. -/
abbrev uint8 := Fin 256

/-- Go `uint16`. -/
abbrev uint16 := Fin 65536

/-- Go conversion `byte(n)`: keeps the low 8 bits. -/
def toByte (n : Nat) : Byte := ⟨n % 2 ^ 8, Nat.mod_lt _ (by decide)⟩

/-- Go conversion `uint16(n)`: keeps the low 16 bits. -/
def toUint16 (n : Nat) : uint16 := ⟨n % 2 ^ 16, Nat.mod_lt _ (by decide)⟩

/-! ## encoding/binary, big-endian byte order -/

/-- Go `binary.BigEndian.PutUint16`: `b[0] = byte(v >> 8); b[1] = byte(v)`. -/
def BigEndian.PutUint16 (v : uint16) : List Byte :=
  [toByte (v.val >>> 8), toByte v.val]

/-- Go `binary.BigEndian.Uint16`: `uint16(b[1]) | uint16(b[0])<<8`. -/
def BigEndian.Uint16 (b : List Byte) : uint16 :=
  toUint16 ((b.getD 1 0).val ||| ((b.getD 0 0).val <<< 8))

/-! ## bytes.Buffer -/

/-- A Go `bytes.Buffer`, represented by its unread portion `buf[off:]`. -/
structure Buffer where
  unread : List Byte
deriving DecidableEq

/-- Go `new(bytes.Buffer)`: the empty buffer. -/
def Buffer.new : Buffer := ⟨[]⟩

/-- Go `bytes.NewBuffer(buf)`: a buffer whose unread contents are `buf`. -/
def NewBuffer (buf : List Byte) : Buffer := ⟨buf⟩

/-- Go `(*Buffer).Write`: appends `p` to the buffer. -/
def Buffer.Write (b : Buffer) (p : List Byte) : Buffer := ⟨b.unread ++ p⟩

/-- Go `(*Buffer).Bytes`: the unread portion. -/
def Buffer.Bytes (b : Buffer) : List Byte := b.unread

/-- Go `(*Buffer).Len`: number of unread bytes. -/
def Buffer.Len (b : Buffer) : Nat := b.unread.length

/-- Go `(*Buffer).Next(n)`: the next `n` bytes, or all that remain when fewer
than `n` do; the buffer advances past them. -/
def Buffer.Next (b : Buffer) (n : Nat) : List Byte × Buffer :=
  let m := b.Len
  let n := if n > m then m else n
  (b.unread.take n, ⟨b.unread.drop n⟩)

/-- Go `io.ReadFull(b, bs)` with `len(bs) = n` on a `bytes.Buffer`: exactly `n`
bytes, or an error (`none`) when fewer remain, in which case what remained has
been consumed. -/
def ReadFull (b : Buffer) (n : Nat) : Option (List Byte) × Buffer :=
  if n ≤ b.Len then (some (b.unread.take n), ⟨b.unread.drop n⟩)
  else (none, ⟨[]⟩)

/-- Go `binary.Write(buf, binary.BigEndian, v)` for `v : uint16`. -/
def binary.WriteUint16 (buf : Buffer) (v : uint16) : Buffer :=
  buf.Write (BigEndian.PutUint16 v)

/-- Go `binary.Write(buf, binary.BigEndian, v)` for `v : uint8`. -/
def binary.WriteUint8 (buf : Buffer) (v : uint8) : Buffer :=
  buf.Write [v]

/-- Go `binary.Read(b, binary.BigEndian, &x)` for `x : uint16`, its error
discarded as the source does: on a short read `x` keeps its value `cur`. -/
def binary.ReadUint16 (b : Buffer) (cur : uint16) : uint16 × Buffer :=
  match ReadFull b 2 with
  | (some bs, b1) => (BigEndian.Uint16 bs, b1)
  | (none, b1) => (cur, b1)

/-- Go `binary.Read(b, binary.BigEndian, &x)` for `x : uint8`, its error
discarded as the source does: on a short read `x` keeps its value `cur`. -/
def binary.ReadUint8 (b : Buffer) (cur : uint8) : uint8 × Buffer :=
  match ReadFull b 1 with
  | (some bs, b1) => (bs.getD 0 0, b1)
  | (none, b1) => (cur, b1)

/-! ## net.IP and net.HardwareAddr -/

/-- Go `net.IP`, a byte slice. -/
abbrev IP := List Byte

/-- Go `net.HardwareAddr`, a byte slice. -/
abbrev HardwareAddr := List Byte

/-- Go `net.IPv4len`. -/
def IPv4len : Nat := 4

/-- Go `net.IPv6len`. -/
def IPv6len : Nat := 16

/-- Go `isZeros`: every byte of the slice is zero. -/
def isZeros (p : List Byte) : Bool := p.all (fun b => b == 0)

/-- Go `(IP).To4`: a 4-byte address is returned as is, a 16-byte IPv4-mapped
address (`::ffff:a.b.c.d`) yields its last four bytes, anything else nil. -/
def IP.To4 (ip : IP) : IP :=
  if ip.length == IPv4len then ip
  else if ip.length == IPv6len && isZeros (ip.take 10) && ip.getD 10 0 == 0xff &&
      ip.getD 11 0 == 0xff then (ip.drop 12).take 4
  else []

/-! ## arp_datagram.go -/

/-- Constant `requestOper`. -/
def requestOper : uint16 := 1

/-- Constant `responseOper`. -/
def responseOper : uint16 := 2

/-- Struct `arpDatagram`. -/
structure arpDatagram where
  htype : uint16
  ptype : uint16
  hlen : uint8
  plen : uint8
  oper : uint16
  sha : List Byte
  spa : List Byte
  tha : List Byte
  tpa : List Byte
deriving DecidableEq

/-- The zero value of `arpDatagram` (`var datagram arpDatagram`). -/
def arpDatagram.zero : arpDatagram :=
  { htype := 0, ptype := 0, hlen := 0, plen := 0, oper := 0,
    sha := [], spa := [], tha := [], tpa := [] }

/-- Function `newArpRequest`. -/
def newArpRequest (srcMac : HardwareAddr) (srcIP : IP) (dstMac : HardwareAddr)
    (dstIP : IP) : arpDatagram :=
  { htype := toUint16 1,
    ptype := toUint16 0x0800,
    hlen := toByte 6,
    plen := toByte 4,
    oper := toUint16 requestOper.val,
    sha := srcMac,
    spa := IP.To4 srcIP,
    tha := dstMac,
    tpa := IP.To4 dstIP }

/-- Method `arpDatagram.Marshal`. -/
def arpDatagram.Marshal (datagram : arpDatagram) : List Byte :=
  let buf := Buffer.new
  let buf := binary.WriteUint16 buf datagram.htype
  let buf := binary.WriteUint16 buf datagram.ptype
  let buf := binary.WriteUint8 buf datagram.hlen
  let buf := binary.WriteUint8 buf datagram.plen
  let buf := binary.WriteUint16 buf datagram.oper
  let buf := buf.Write datagram.sha
  let buf := buf.Write datagram.spa
  let buf := buf.Write datagram.tha
  let buf := buf.Write datagram.tpa
  buf.Bytes

/-- Method `arpDatagram.MarshalWithEthernetHeader`. -/
def arpDatagram.MarshalWithEthernetHeader (datagram : arpDatagram) : List Byte :=
  let ethernetHeader : List Byte := []
  let ethernetHeader := ethernetHeader ++ datagram.tha
  let ethernetHeader := ethernetHeader ++ datagram.sha
  let ethernetHeader := ethernetHeader ++ [0x08, 0x06]
  ethernetHeader ++ datagram.Marshal

/-- Go `bytes.Equal`: same length and same bytes (nil equals empty). -/
def bytes.Equal (a b : List Byte) : Bool := a == b

/-- Method `arpDatagram.IsResponseOf`. -/
def arpDatagram.IsResponseOf (datagram request : arpDatagram) : Bool :=
  datagram.oper == responseOper && bytes.Equal request.tpa datagram.spa &&
    bytes.Equal request.spa datagram.tpa

/-- Method `arpDatagram.IsResponseOfTarget`. -/
def arpDatagram.IsResponseOfTarget (datagram request : arpDatagram) : Bool :=
  datagram.oper == responseOper && bytes.Equal request.tpa datagram.spa

/-- Method `arpDatagram.IsDuplicateRequestOf`. -/
def arpDatagram.IsDuplicateRequestOf (datagram request : arpDatagram)
    (ignoreCheck : Bool) : Bool :=
  datagram.oper == requestOper && bytes.Equal request.tpa datagram.spa &&
    (ignoreCheck || bytes.Equal request.tpa datagram.tpa)

/-- Method `arpDatagram.IsResponseOfDADRequest`. -/
def arpDatagram.IsResponseOfDADRequest (datagram request : arpDatagram)
    (ignoreCheck : Bool) : Bool :=
  datagram.oper == responseOper && bytes.Equal request.tpa datagram.spa &&
    (ignoreCheck || bytes.Equal request.tpa datagram.tpa)

/-- Function `parseArpDatagram`. -/
def parseArpDatagram (buffer : List Byte) : arpDatagram :=
  let datagram := arpDatagram.zero
  let b := NewBuffer buffer
  let (htype, b) := binary.ReadUint16 b datagram.htype
  let (ptype, b) := binary.ReadUint16 b datagram.ptype
  let (hlen, b) := binary.ReadUint8 b datagram.hlen
  let (plen, b) := binary.ReadUint8 b datagram.plen
  let (oper, b) := binary.ReadUint16 b datagram.oper
  let haLen := hlen.val
  let paLen := plen.val
  let (sha, b) := b.Next haLen
  let (spa, b) := b.Next paLen
  let (tha, b) := b.Next haLen
  let (tpa, _) := b.Next paLen
  { htype := htype, ptype := ptype, hlen := hlen, plen := plen, oper := oper,
    sha := sha, spa := spa, tha := tha, tpa := tpa }

/-! ## net.IPNet, net.Addr and net.Interface -/

/-- Go `net.IPNet`: an address and a mask. -/
structure IPNet where
  IP : arping.IP
  Mask : List Byte
deriving DecidableEq

/-- Go `networkNumberAndMask`: the address in its shortest form with a mask of
the same length, or `(nil, nil)` when the two do not fit together. -/
def networkNumberAndMask (n : IPNet) : IP × List Byte :=
  let ip4 := IP.To4 n.IP
  if ip4 == [] && n.IP.length != IPv6len then ([], [])
  else
    let ip := if ip4 == [] then n.IP else ip4
    let m := n.Mask
    if m.length == IPv4len then
      if ip.length != IPv4len then ([], []) else (ip, m)
    else if m.length == IPv6len then
      if ip.length == IPv4len then (ip, m.drop 12) else (ip, m)
    else ([], [])

/-- Go `(*IPNet).Contains`: the masked network number equals the masked
address, byte by byte. -/
def IPNet.Contains (n : IPNet) (ip : arping.IP) : Bool :=
  let (nn, m) := networkNumberAndMask n
  let x := IP.To4 ip
  let ip := if x != [] then x else ip
  let l := ip.length
  if l != nn.length then false
  else (List.range l).all
    (fun i => (nn.getD i 0 &&& m.getD i 0) == (ip.getD i 0 &&& m.getD i 0))

/-- Go `net.Addr`, an interface value, as `(*Interface).Addrs` yields it: a
`*net.IPNet`, or a `*net.IPAddr` (an address without a mask), on which the type
assertion `a.(*net.IPNet)` fails. -/
inductive Addr where
  | ipNet (ipnet : IPNet)
  | ipAddr (ip : IP)
deriving DecidableEq

/-- The errors the resolver returns: one passed on from the `net` package, and
the three messages built in `netutils.go`. -/
inductive Err where
  | system (msg : String)
  | noIP (ifaceName : String)
  | cantReach (ifaceName : String) (dstIP : IP)
  | noUsableInterface
deriving DecidableEq

deriving instance DecidableEq for Except

/-- Go `net.Interface`, with the outcome of its `Addrs()` call as a field. -/
structure Interface where
  Name : String
  HardwareAddr : HardwareAddr
  Flags : Nat
  Addrs : Except Err (List Addr)
deriving DecidableEq

/-! ## netutils.go -/

/-- How the `for i, a := range addrs` loop of `findIPInNetworkFromIface` ends:
by its `return ipnet.IP, nil`, or by running out of entries with `firstIP`. -/
inductive ScanResult where
  | returned (ip : IP)
  | exhausted (firstIP : IP)
deriving DecidableEq

/-- The loop of `findIPInNetworkFromIface` from index `i` on, over the entries
still to visit. -/
def scanAddrs (dstIP : IP) (i : Nat) (firstIP : IP) : List Addr → ScanResult
  | [] => .exhausted firstIP
  | .ipNet ipnet :: rest =>
    if ipnet.Contains dstIP then .returned ipnet.IP
    else scanAddrs dstIP (i + 1) (if i == 0 then ipnet.IP else firstIP) rest
  | .ipAddr _ :: rest => scanAddrs dstIP (i + 1) firstIP rest

/-- Function `findIPInNetworkFromIface`. -/
def findIPInNetworkFromIface (dstIP : IP) (iface : Interface) (ignoreNet : Bool) :
    Except Err IP :=
  match iface.Addrs with
  | .error err => .error err
  | .ok addrs =>
    if addrs.length == 0 then .error (.noIP iface.Name)
    else
      match scanAddrs dstIP 0 [] addrs with
      | .returned ip => .ok ip
      | .exhausted firstIP =>
        if ignoreNet then .ok firstIP
        else .error (.cantReach iface.Name dstIP)

/-- Closure `isDown` of `findUsableInterfaceForNetwork`: `iface.Flags&1 == 0`. -/
def isDown (iface : Interface) : Bool := iface.Flags &&& 1 == 0

/-- Closure `hasAddressInNetwork` of `findUsableInterfaceForNetwork`. -/
def hasAddressInNetwork (dstIP : IP) (iface : Interface) : Bool :=
  match findIPInNetworkFromIface dstIP iface false with
  | .error _ => false
  | .ok _ => true

/-- The `for _, iface := range ifaces` loop of `findUsableInterfaceForNetwork`
and the `return` that follows it (the log lines have no effect on the result). -/
def scanInterfaces (dstIP : IP) : List Interface → Except Err Interface
  | [] => .error .noUsableInterface
  | iface :: rest =>
    if isDown iface then scanInterfaces dstIP rest
    else if !hasAddressInNetwork dstIP iface then scanInterfaces dstIP rest
    else .ok iface

/-- Function `findUsableInterfaceForNetwork`, with the outcome of
`net.Interfaces()` as an argument. -/
def findUsableInterfaceForNetwork (dstIP : IP)
    (Interfaces : Except Err (List Interface)) : Except Err Interface :=
  match Interfaces with
  | .error err => .error err
  | .ok ifaces => scanInterfaces dstIP ifaces

/-! ## Specification vocabulary -/

/-- The two bytes of a 16-bit value in network byte order, most significant
first. -/
def beBytes (v : uint16) : List Byte :=
  [⟨v.val / 256, by have := v.isLt; omega⟩, ⟨v.val % 256, by omega⟩]

/-- The 16-bit value whose network-byte-order bytes are `hi`, `lo`. -/
def beValue (hi lo : Byte) : Nat := hi.val * 256 + lo.val

/-- The byte of `buf` at index `i` (zero past the end). -/
def byteAt (buf : List Byte) (i : Nat) : Byte := buf.getD i 0

/-- Go slice expression `buf[lo:hi]`. -/
def slice (buf : List Byte) (lo hi : Nat) : List Byte := (buf.drop lo).take (hi - lo)

/-- The twelve bytes that precede an IPv4 address in its 16-byte IPv4-mapped
form `::ffff:a.b.c.d`. -/
def v4InV6Prefix : List Byte := [0, 0, 0, 0, 0, 0, 0, 0, 0, 0, 0xff, 0xff]

/-- An address representable as IPv4: four bytes, or sixteen bytes of which
the first twelve are the IPv4-mapped prefix. -/
def representableAsIPv4 (ip : IP) : Prop :=
  ip.length = 4 ∨ (ip.length = 16 ∧ ip.take 12 = v4InV6Prefix)

instance (ip : IP) : Decidable (representableAsIPv4 ip) := by
  unfold representableAsIPv4
  exact inferInstance

/-- The 4-byte form of an address representable as IPv4: its last four bytes. -/
def fourByteForm (ip : IP) : List Byte := ip.drop (ip.length - 4)

/-- The received datagram with its `spa` and `tpa` exchanged. -/
def swapProtocolAddrs (d : arpDatagram) : arpDatagram :=
  { d with spa := d.tpa, tpa := d.spa }

/-- The IP of an address entry, whichever of the two address types it is. -/
def Addr.entryIP : Addr → IP
  | .ipNet ipnet => ipnet.IP
  | .ipAddr ip => ip

/-- An interface is up: bit 0 of its flags (`net.FlagUp`) is set. -/
def flagUp (iface : Interface) : Prop := iface.Flags % 2 = 1

instance (iface : Interface) : Decidable (flagUp iface) := by
  unfold flagUp
  exact inferInstance

/-- Whether `findIPInNetworkFromIface` with `ignoreNet = false` succeeds. -/
def reaches (dstIP : IP) (iface : Interface) : Prop :=
  ∃ ip, findIPInNetworkFromIface dstIP iface false = .ok ip

/-- The data-model invariant of a datagram: each address field has the length
its header declares. -/
def lengthsAsDeclared (d : arpDatagram) : Prop :=
  d.sha.length = d.hlen.val ∧ d.tha.length = d.hlen.val ∧
    d.spa.length = d.plen.val ∧ d.tpa.length = d.plen.val

instance (d : arpDatagram) : Decidable (lengthsAsDeclared d) := by
  unfold lengthsAsDeclared
  exact inferInstance

/-! ## Sample data -/

/-- A broadcast request from 192.168.1.10 for 192.168.1.1. -/
def sampleRequest : arpDatagram :=
  { htype := 1, ptype := 0x0800, hlen := 6, plen := 4, oper := 1,
    sha := [0x02, 0x42, 0xac, 0x11, 0x00, 0x02], spa := [192, 168, 1, 10],
    tha := [0xff, 0xff, 0xff, 0xff, 0xff, 0xff], tpa := [192, 168, 1, 1] }

/-- A 31-byte frame: the encoding of `sampleRequest` followed by three bytes
of padding. -/
def sampleWire : List Byte :=
  [0x00, 0x01, 0x08, 0x00, 6, 4, 0x00, 0x01,
   0x02, 0x42, 0xac, 0x11, 0x00, 0x02, 192, 168, 1, 10,
   0xff, 0xff, 0xff, 0xff, 0xff, 0xff, 192, 168, 1, 1,
   0, 0, 0]

/-- A genuine response to `sampleRequest`, sent by 192.168.1.1. -/
def sampleResponse : arpDatagram :=
  { htype := 1, ptype := 0x0800, hlen := 6, plen := 4, oper := 2,
    sha := [0x02, 0x42, 0xac, 0x11, 0x00, 0x01], spa := [192, 168, 1, 1],
    tha := [0x02, 0x42, 0xac, 0x11, 0x00, 0x02], tpa := [192, 168, 1, 10] }

/-- A request re-sent by a switch that holds 192.168.1.1, asking for
192.168.1.1. -/
def sampleDuplicate : arpDatagram :=
  { htype := 1, ptype := 0x0800, hlen := 6, plen := 4, oper := 1,
    sha := [0x00, 0x1b, 0x54, 0x00, 0x00, 0x01], spa := [192, 168, 1, 1],
    tha := [0, 0, 0, 0, 0, 0], tpa := [192, 168, 1, 1] }

/-- The network 10.0.0.1/8. -/
def sampleNetWide : IPNet := { IP := [10, 0, 0, 1], Mask := [255, 0, 0, 0] }

/-- The network 10.0.0.2/24, more specific than `sampleNetWide`. -/
def sampleNetNarrow : IPNet := { IP := [10, 0, 0, 2], Mask := [255, 255, 255, 0] }

/-- The network 172.16.0.1/24. -/
def sampleNetOther : IPNet := { IP := [172, 16, 0, 1], Mask := [255, 255, 255, 0] }

/-- The address entries of `sampleIface`, in enumeration order. -/
def sampleAddrs : List Addr :=
  [.ipNet sampleNetOther, .ipAddr [10, 0, 0, 9], .ipNet sampleNetWide, .ipNet sampleNetNarrow]

/-- An interface that is up and bound to `sampleAddrs`. -/
def sampleIface : Interface :=
  { Name := "eth0", HardwareAddr := [0x02, 0x42, 0xac, 0x11, 0x00, 0x02], Flags := 1,
    Addrs := .ok sampleAddrs }

/-- The network 10.0.0.1/24. -/
def sampleNetTen : IPNet := { IP := [10, 0, 0, 1], Mask := [255, 255, 255, 0] }

/-- An interface bound to 10.0.0.1/24 and 172.16.0.1/24, in that order. -/
def sampleFallbackIface : Interface :=
  { Name := "eth1", HardwareAddr := [0x02, 0x42, 0xac, 0x11, 0x00, 0x03], Flags := 1,
    Addrs := .ok [.ipNet sampleNetTen, .ipNet sampleNetOther] }

/-- An interface whose only address entry is the plain address 10.0.0.9, a
`*net.IPAddr` and not an IP network. -/
def sampleAnycastIface : Interface :=
  { Name := "eth2", HardwareAddr := [0x02, 0x42, 0xac, 0x11, 0x00, 0x04], Flags := 1,
    Addrs := .ok [.ipAddr [10, 0, 0, 9]] }

/-- An interface that is down (flag bit 0 clear) although bound to 10.0.0.3/24. -/
def sampleDownIface : Interface :=
  { Name := "eth3", HardwareAddr := [0x02, 0x42, 0xac, 0x11, 0x00, 0x05], Flags := 2,
    Addrs := .ok [.ipNet { IP := [10, 0, 0, 3], Mask := [255, 255, 255, 0] }] }

/-- An interface that is up and bound to 10.0.0.1/8 only. -/
def sampleWideIface : Interface :=
  { Name := "eth4", HardwareAddr := [0x02, 0x42, 0xac, 0x11, 0x00, 0x06], Flags := 3,
    Addrs := .ok [.ipNet sampleNetWide] }

/-- An interface that is up and bound to 10.0.0.2/24 only. -/
def sampleNarrowIface : Interface :=
  { Name := "eth5", HardwareAddr := [0x02, 0x42, 0xac, 0x11, 0x00, 0x07], Flags := 1,
    Addrs := .ok [.ipNet sampleNetNarrow] }

/-- The first 20 bytes of `sampleWire`: the header declares 6-byte and 4-byte
addresses, 28 bytes in all, but the frame stops two bytes into `tha`. -/
def sampleTruncated : List Byte :=
  [0x00, 0x01, 0x08, 0x00, 6, 4, 0x00, 0x01,
   0x02, 0x42, 0xac, 0x11, 0x00, 0x02, 192, 168, 1, 10,
   0xff, 0xff]

/-- An interface that is up but has no address entry. -/
def sampleBareIface : Interface :=
  { Name := "lo9", HardwareAddr := [], Flags := 1, Addrs := .ok [] }

/-- A response that agrees with `sampleResponse` on `oper`, `spa` and `tpa`
and differs in every other field. -/
def sampleResponseAlt : arpDatagram :=
  { htype := 6, ptype := 0x86dd, hlen := 8, plen := 16, oper := 2,
    sha := [1, 2, 3], spa := [192, 168, 1, 1], tha := [], tpa := [192, 168, 1, 10] }

/-- A datagram that agrees with `sampleRequest` on `spa` and `tpa` and differs
in every other field, `oper` included. -/
def sampleRequestAlt : arpDatagram :=
  { htype := 6, ptype := 0x86dd, hlen := 8, plen := 16, oper := 9,
    sha := [], spa := [192, 168, 1, 10], tha := [7], tpa := [192, 168, 1, 1] }

/-! ## Codec lemmas -/

theorem toByte_shift_val (v : uint16) : (toByte (v.val >>> 8)).val = v.val / 256 := by
  have hv := v.isLt
  show v.val >>> 8 % 2 ^ 8 = v.val / 256
  rw [Nat.shiftRight_eq_div_pow]
  omega

theorem toByte_low_val (v : uint16) : (toByte v.val).val = v.val % 256 := by
  show v.val % 2 ^ 8 = v.val % 256
  omega

theorem putUint16_eq_beBytes (v : uint16) : BigEndian.PutUint16 v = beBytes v := by
  have e1 : toByte (v.val >>> 8) = ⟨v.val / 256, by have := v.isLt; omega⟩ :=
    Fin.ext (toByte_shift_val v)
  have e2 : toByte v.val = ⟨v.val % 256, by omega⟩ := Fin.ext (toByte_low_val v)
  simp only [BigEndian.PutUint16, beBytes, e1, e2]

theorem uint16_pair_val (b0 b1 : Byte) :
    (BigEndian.Uint16 [b0, b1]).val = beValue b0 b1 := by
  have h0 := b0.isLt
  have h1 : b1.val < 2 ^ 8 := b1.isLt
  have hor : b1.val ||| (b0.val <<< 8) = 2 ^ 8 * b0.val + b1.val := by
    rw [Nat.shiftLeft_eq, Nat.mul_comm, Nat.mul_add_lt_is_or h1, Nat.lor_comm]
  show (((([b0, b1] : List Byte).getD 1 0).val |||
    ((([b0, b1] : List Byte).getD 0 0).val <<< 8)) % 2 ^ 16) = beValue b0 b1
  simp only [List.getD_cons_zero, List.getD_cons_succ, beValue]
  rw [hor]
  omega

theorem uint16_beBytes (v : uint16) : BigEndian.Uint16 (beBytes v) = v := by
  apply Fin.ext
  have hv := v.isLt
  simp only [beBytes]
  rw [uint16_pair_val]
  simp only [beValue]
  omega

theorem marshal_eq (d : arpDatagram) :
    d.Marshal = beBytes d.htype ++ beBytes d.ptype ++ [d.hlen, d.plen] ++ beBytes d.oper
      ++ d.sha ++ d.spa ++ d.tha ++ d.tpa := by
  simp [arpDatagram.Marshal, Buffer.new, binary.WriteUint16, binary.WriteUint8,
    Buffer.Write, Buffer.Bytes, putUint16_eq_beBytes]

theorem beBytes_length (v : uint16) : (beBytes v).length = 2 := rfl

theorem next_eq (l : List Byte) (n : Nat) :
    Buffer.Next ⟨l⟩ n = (l.take n, ⟨l.drop n⟩) := by
  simp only [Buffer.Next, Buffer.Len]
  split
  · rename_i h
    rw [List.take_of_length_le (Nat.le_refl _), List.take_of_length_le (Nat.le_of_lt h),
      List.drop_of_length_le (Nat.le_refl _), List.drop_of_length_le (Nat.le_of_lt h)]
  · rfl

/-- Decoding a buffer that starts with eight header bytes. -/
theorem parse_cons8 (b0 b1 b2 b3 h p b6 b7 : Byte) (rest : List Byte) :
    parseArpDatagram (b0 :: b1 :: b2 :: b3 :: h :: p :: b6 :: b7 :: rest) =
      { htype := BigEndian.Uint16 [b0, b1],
        ptype := BigEndian.Uint16 [b2, b3],
        hlen := h, plen := p,
        oper := BigEndian.Uint16 [b6, b7],
        sha := rest.take h.val,
        spa := (rest.drop h.val).take p.val,
        tha := ((rest.drop h.val).drop p.val).take h.val,
        tpa := (((rest.drop h.val).drop p.val).drop h.val).take p.val } := by
  simp [parseArpDatagram, NewBuffer, binary.ReadUint16, binary.ReadUint8, ReadFull,
    Buffer.Len, arpDatagram.zero, next_eq]

theorem uint16_hi_lo (v : uint16) (h1 : v.val / 256 < 256) (h2 : v.val % 256 < 256) :
    BigEndian.Uint16 [⟨v.val / 256, h1⟩, ⟨v.val % 256, h2⟩] = v :=
  uint16_beBytes v

theorem slice_cons8 (b0 b1 b2 b3 b4 b5 b6 b7 : Byte) (rest : List Byte) (lo hi a n : Nat)
    (hlo : lo = 8 + a) (hhi : hi = lo + n) :
    slice (b0 :: b1 :: b2 :: b3 :: b4 :: b5 :: b6 :: b7 :: rest) lo hi =
      (rest.drop a).take n := by
  subst hlo hhi
  unfold slice
  rw [← List.drop_drop a 8, Nat.add_sub_cancel_left]
  rfl

theorem exists_cons8 (buf : List Byte) (h : 8 ≤ buf.length) :
    ∃ b0 b1 b2 b3 b4 b5 b6 b7 rest,
      buf = b0 :: b1 :: b2 :: b3 :: b4 :: b5 :: b6 :: b7 :: rest := by
  match buf, h with
  | b0 :: b1 :: b2 :: b3 :: b4 :: b5 :: b6 :: b7 :: rest, _ =>
    exact ⟨b0, b1, b2, b3, b4, b5, b6, b7, rest, rfl⟩

/-! ## The wire format -/

/-- C1 (round trip): a datagram with `hlen = 6`, `plen = 4`, six-byte hardware
addresses and four-byte protocol addresses is returned unchanged, in all nine
fields, by `parseArpDatagram` applied to its `Marshal` encoding, whatever its
`htype`, `ptype` and `oper`. -/
theorem parse_marshal_roundtrip (d : arpDatagram) (hh : d.hlen = 6) (hp : d.plen = 4)
    (hsha : d.sha.length = 6) (htha : d.tha.length = 6)
    (hspa : d.spa.length = 4) (htpa : d.tpa.length = 4) :
    parseArpDatagram d.Marshal = d := by
  obtain ⟨ht, pt, hl, pl, op, sha, spa, tha, tpa⟩ := d
  simp only at hh hp hsha htha hspa htpa
  subst hh hp
  rw [marshal_eq]
  simp only [beBytes, List.cons_append, List.nil_append, List.append_assoc]
  rw [parse_cons8]
  have v6 : ((6 : Byte)).val = 6 := rfl
  have v4 : ((4 : Byte)).val = 4 := rfl
  simp only [uint16_hi_lo, v6, v4, List.take_left' hsha, List.drop_left' hsha,
    List.take_left' hspa, List.drop_left' hspa, List.take_left' htha,
    List.drop_left' htha, List.take_of_length_le (Nat.le_of_eq htpa)]

theorem parse_marshal_roundtrip_witness :
    parseArpDatagram sampleRequest.Marshal = sampleRequest :=
  parse_marshal_roundtrip sampleRequest rfl rfl rfl rfl rfl rfl

/-- C2 (encode layout): `Marshal` yields the two big-endian bytes of `htype`,
those of `ptype`, the byte `hlen`, the byte `plen`, the two big-endian bytes of
`oper`, then `sha`, `spa`, `tha`, `tpa` verbatim and nothing else; so its length
is `8 + len(sha) + len(spa) + len(tha) + len(tpa)`, whatever `hlen` and `plen`
say. -/
theorem marshal_layout (d : arpDatagram) :
    d.Marshal = beBytes d.htype ++ beBytes d.ptype ++ [d.hlen] ++ [d.plen] ++
        beBytes d.oper ++ (d.sha ++ d.spa ++ d.tha ++ d.tpa) ∧
      d.Marshal.length =
        8 + d.sha.length + d.spa.length + d.tha.length + d.tpa.length ∧
      ∀ h p : uint8,
        ({ d with hlen := h, plen := p } : arpDatagram).Marshal.length = d.Marshal.length := by
  refine ⟨?_, ?_, ?_⟩
  · rw [marshal_eq]
    simp only [List.append_assoc, List.cons_append, List.nil_append]
  · rw [marshal_eq]
    simp only [List.length_append, beBytes_length, List.length_cons, List.length_nil]
  · intro h p
    rw [marshal_eq, marshal_eq]
    simp only [List.length_append, beBytes_length, List.length_cons, List.length_nil]

/-- C3 (decode layout): on a buffer holding at least `8 + 2 * (h + p)` bytes,
where `h` and `p` are its bytes 4 and 5, `parseArpDatagram` reads `htype`,
`ptype` and `oper` big-endian from bytes 0-1, 2-3 and 6-7, `hlen = h`,
`plen = p`, and the four addresses from the consecutive ranges that start at
offsets `8`, `8+h`, `8+h+p` and `8+2h+p`, each of its full declared length. -/
theorem parse_layout (buf : List Byte) (h p : Nat)
    (hh : h = (byteAt buf 4).val) (hp : p = (byteAt buf 5).val)
    (hlen : 8 + 2 * (h + p) ≤ buf.length) :
    (parseArpDatagram buf).htype.val = beValue (byteAt buf 0) (byteAt buf 1) ∧
      (parseArpDatagram buf).ptype.val = beValue (byteAt buf 2) (byteAt buf 3) ∧
      (parseArpDatagram buf).hlen.val = h ∧
      (parseArpDatagram buf).plen.val = p ∧
      (parseArpDatagram buf).oper.val = beValue (byteAt buf 6) (byteAt buf 7) ∧
      (parseArpDatagram buf).sha = slice buf 8 (8 + h) ∧
      (parseArpDatagram buf).spa = slice buf (8 + h) (8 + h + p) ∧
      (parseArpDatagram buf).tha = slice buf (8 + h + p) (8 + 2 * h + p) ∧
      (parseArpDatagram buf).tpa = slice buf (8 + 2 * h + p) (8 + 2 * h + 2 * p) ∧
      (parseArpDatagram buf).sha.length = h ∧ (parseArpDatagram buf).spa.length = p ∧
      (parseArpDatagram buf).tha.length = h ∧ (parseArpDatagram buf).tpa.length = p := by
  obtain ⟨b0, b1, b2, b3, b4, b5, b6, b7, rest, rfl⟩ := exists_cons8 buf (by omega)
  have hh2 : b4.val = h := hh.symm
  have hp2 : b5.val = p := hp.symm
  have hrest : 2 * (h + p) ≤ rest.length := by
    simp only [List.length_cons] at hlen
    omega
  rw [parse_cons8, slice_cons8 b0 b1 b2 b3 b4 b5 b6 b7 rest 8 (8 + h) 0 h rfl rfl,
    slice_cons8 b0 b1 b2 b3 b4 b5 b6 b7 rest (8 + h) (8 + h + p) h p rfl rfl,
    slice_cons8 b0 b1 b2 b3 b4 b5 b6 b7 rest (8 + h + p) (8 + 2 * h + p) (h + p) h
      (by omega) (by omega),
    slice_cons8 b0 b1 b2 b3 b4 b5 b6 b7 rest (8 + 2 * h + p) (8 + 2 * h + 2 * p)
      (h + p + h) p (by omega) (by omega)]
  simp only [hh2, hp2, uint16_pair_val, byteAt, List.getD_cons_zero, List.getD_cons_succ,
    List.drop_drop, List.length_take, List.length_drop, List.drop_zero, true_and]
  omega

theorem parse_layout_witness :
    8 + 2 * (6 + 4) ≤ sampleWire.length ∧
      (parseArpDatagram sampleWire).tpa = slice sampleWire (8 + 2 * 6 + 4) (8 + 2 * 6 + 2 * 4) ∧
      (parseArpDatagram sampleWire).tpa.length = 4 :=
  ⟨by decide, (parse_layout sampleWire 6 4 rfl rfl (by decide)).2.2.2.2.2.2.2.2.1,
    (parse_layout sampleWire 6 4 rfl rfl (by decide)).2.2.2.2.2.2.2.2.2.2.2.2⟩

/-- C4 (link-layer wrapping): `MarshalWithEthernetHeader` is `tha`, then `sha`,
then the EtherType bytes `0x08 0x06`, then the `Marshal` encoding; with six-byte
`tha` and `sha` the first 14 bytes are that header and the rest is `Marshal`. -/
theorem ethernet_wrapping (d : arpDatagram) :
    d.MarshalWithEthernetHeader = d.tha ++ d.sha ++ [0x08, 0x06] ++ d.Marshal ∧
      (d.tha.length = 6 → d.sha.length = 6 →
        d.MarshalWithEthernetHeader.take 14 = d.tha ++ d.sha ++ [0x08, 0x06] ∧
        d.MarshalWithEthernetHeader.drop 14 = d.Marshal) := by
  have e : d.MarshalWithEthernetHeader = d.tha ++ d.sha ++ [0x08, 0x06] ++ d.Marshal := by
    simp only [arpDatagram.MarshalWithEthernetHeader, List.nil_append]
  refine ⟨e, fun ht hs => ?_⟩
  have hl : (d.tha ++ d.sha ++ [0x08, 0x06]).length = 14 := by
    simp only [List.length_append, ht, hs, List.length_cons, List.length_nil]
  rw [e]
  exact ⟨List.take_left' hl, List.drop_left' hl⟩

theorem ethernet_wrapping_witness :
    sampleRequest.MarshalWithEthernetHeader.take 14 =
        [0xff, 0xff, 0xff, 0xff, 0xff, 0xff, 0x02, 0x42, 0xac, 0x11, 0x00, 0x02, 0x08, 0x06] ∧
      sampleRequest.MarshalWithEthernetHeader.drop 14 = sampleRequest.Marshal :=
  (ethernet_wrapping sampleRequest).2 rfl rfl

/-! ## The response classifier -/

theorem bytes_equal_comm_iff (a b : List Byte) : bytes.Equal a b = true ↔ b = a := by
  unfold bytes.Equal
  rw [beq_iff_eq]
  exact eq_comm

theorem isDuplicateRequestOf_true_iff (recv req : arpDatagram) (ignoreCheck : Bool) :
    recv.IsDuplicateRequestOf req ignoreCheck = true ↔
      recv.oper = 1 ∧ recv.spa = req.tpa ∧ (ignoreCheck = true ∨ recv.tpa = req.tpa) := by
  simp only [arpDatagram.IsDuplicateRequestOf, Bool.and_eq_true, Bool.or_eq_true,
    bytes_equal_comm_iff, beq_iff_eq, requestOper, and_assoc]

theorem isResponseOfDADRequest_true_iff (recv req : arpDatagram) (ignoreCheck : Bool) :
    recv.IsResponseOfDADRequest req ignoreCheck = true ↔
      recv.oper = 2 ∧ recv.spa = req.tpa ∧ (ignoreCheck = true ∨ recv.tpa = req.tpa) := by
  simp only [arpDatagram.IsResponseOfDADRequest, Bool.and_eq_true, Bool.or_eq_true,
    bytes_equal_comm_iff, beq_iff_eq, responseOper, and_assoc]

theorem isResponseOfTarget_true_iff (recv req : arpDatagram) :
    recv.IsResponseOfTarget req = true ↔ recv.oper = 2 ∧ recv.spa = req.tpa := by
  simp only [arpDatagram.IsResponseOfTarget, Bool.and_eq_true, bytes_equal_comm_iff, beq_iff_eq,
    responseOper]

theorem isResponseOf_true_iff (recv req : arpDatagram) :
    recv.IsResponseOf req = true ↔
      recv.oper = 2 ∧ recv.spa = req.tpa ∧ recv.tpa = req.spa := by
  simp only [arpDatagram.IsResponseOf, Bool.and_eq_true, bytes_equal_comm_iff, beq_iff_eq,
    responseOper, and_assoc]

/-- C5 (strict match): `IsResponseOf` holds exactly when `recv.oper = 2`,
`recv.spa = req.tpa` and `recv.tpa = req.spa`; a response from 192.168.1.1 to
192.168.1.10 matches a request from 192.168.1.10 for 192.168.1.1; and a match
with `req.spa ≠ req.tpa` is lost when `recv.spa` and `recv.tpa` are exchanged. -/
theorem isResponseOf_iff (recv req : arpDatagram) :
    (recv.IsResponseOf req = true ↔
        recv.oper = 2 ∧ recv.spa = req.tpa ∧ recv.tpa = req.spa) ∧
      (req.spa = [192, 168, 1, 10] → req.tpa = [192, 168, 1, 1] → recv.oper = 2 →
        recv.spa = [192, 168, 1, 1] → recv.tpa = [192, 168, 1, 10] →
        recv.IsResponseOf req = true) ∧
      (recv.IsResponseOf req = true → req.spa ≠ req.tpa →
        (swapProtocolAddrs recv).IsResponseOf req = false) := by
  have key := fun r : arpDatagram => isResponseOf_true_iff r req
  refine ⟨key recv, ?_, ?_⟩
  · intro h1 h2 h3 h4 h5
    exact (key recv).2 ⟨h3, h4.trans h2.symm, h5.trans h1.symm⟩
  · intro hm hne
    obtain ⟨_, h2, h3⟩ := (key recv).1 hm
    cases hsw : (swapProtocolAddrs recv).IsResponseOf req
    · rfl
    · obtain ⟨_, h4, _⟩ := (key _).1 hsw
      have h4' : recv.tpa = req.tpa := h4
      exact absurd (h3.symm.trans h4') hne

theorem isResponseOf_iff_witness :
    sampleResponse.IsResponseOf sampleRequest = true ∧
      (swapProtocolAddrs sampleResponse).IsResponseOf sampleRequest = false :=
  ⟨(isResponseOf_iff sampleResponse sampleRequest).2.1 rfl rfl rfl rfl rfl,
    (isResponseOf_iff sampleResponse sampleRequest).2.2 (by decide) (by decide)⟩

/-- C6 (duplicate-request detection): for a received request (`oper = 1`)
whose `spa` is the requested `tpa`, `IsDuplicateRequestOf` without
`ignoreCheck` holds exactly when `recv.tpa = req.tpa`, and with `ignoreCheck`
it holds whatever `recv.tpa` is; when `recv.oper ≠ 1` or `recv.spa ≠ req.tpa`
it is false for both values of `ignoreCheck`. -/
theorem isDuplicateRequestOf_cases (recv req : arpDatagram) :
    (recv.oper = 1 → recv.spa = req.tpa →
        (recv.IsDuplicateRequestOf req false = true ↔ recv.tpa = req.tpa) ∧
        recv.IsDuplicateRequestOf req true = true) ∧
      (recv.oper ≠ 1 ∨ recv.spa ≠ req.tpa →
        ∀ ignoreCheck : Bool, recv.IsDuplicateRequestOf req ignoreCheck = false) := by
  refine ⟨fun ho hs => ⟨?_, ?_⟩, fun hne ignoreCheck => ?_⟩
  · rw [isDuplicateRequestOf_true_iff]
    constructor
    · rintro ⟨_, _, h | h⟩
      · exact absurd h (by decide)
      · exact h
    · exact fun h => ⟨ho, hs, Or.inr h⟩
  · exact (isDuplicateRequestOf_true_iff recv req true).2 ⟨ho, hs, Or.inl rfl⟩
  · cases hv : recv.IsDuplicateRequestOf req ignoreCheck
    · rfl
    · obtain ⟨h1, h2, _⟩ := (isDuplicateRequestOf_true_iff recv req ignoreCheck).1 hv
      rcases hne with h | h
      · exact absurd h1 h
      · exact absurd h2 h

theorem isDuplicateRequestOf_cases_witness :
    ((sampleDuplicate.IsDuplicateRequestOf sampleRequest false = true ↔
        sampleDuplicate.tpa = sampleRequest.tpa) ∧
      sampleDuplicate.IsDuplicateRequestOf sampleRequest true = true) ∧
      ∀ ignoreCheck : Bool, sampleResponse.IsDuplicateRequestOf sampleRequest ignoreCheck = false :=
  ⟨(isDuplicateRequestOf_cases sampleDuplicate sampleRequest).1 rfl rfl,
    (isDuplicateRequestOf_cases sampleResponse sampleRequest).2 (Or.inl (by decide))⟩

/-- C7 (DAD self-answer): `IsResponseOfDADRequest` holds exactly when
`recv.oper = 2`, `recv.spa = req.tpa` and (`ignoreCheck` or
`recv.tpa = req.tpa`); the echoed target is compared with `req.tpa`, not with
`req.spa`: an answer that echoes `req.spa` as its target is rejected without
`ignoreCheck` whenever `req.spa ≠ req.tpa`. -/
theorem isResponseOfDADRequest_iff (recv req : arpDatagram) (ignoreCheck : Bool) :
    (recv.IsResponseOfDADRequest req ignoreCheck = true ↔
        recv.oper = 2 ∧ recv.spa = req.tpa ∧ (ignoreCheck = true ∨ recv.tpa = req.tpa)) ∧
      (recv.tpa = req.spa → req.spa ≠ req.tpa →
        recv.IsResponseOfDADRequest req false = false) := by
  refine ⟨isResponseOfDADRequest_true_iff recv req ignoreCheck, fun ht hne => ?_⟩
  cases hv : recv.IsResponseOfDADRequest req false
  · rfl
  · obtain ⟨_, _, h | h⟩ := (isResponseOfDADRequest_true_iff recv req false).1 hv
    · exact absurd h (by decide)
    · exact absurd (ht.symm.trans h) hne

theorem isResponseOfDADRequest_iff_witness :
    sampleResponse.IsResponseOfDADRequest sampleRequest false = false :=
  (isResponseOfDADRequest_iff sampleResponse sampleRequest false).2 rfl (by decide)

/-- C8 (loose match and precedence): `IsResponseOfTarget` holds exactly when
`recv.oper = 2` and `recv.spa = req.tpa`; every strict match (`IsResponseOf`) is
also accepted by `IsResponseOfTarget` and by `IsResponseOfDADRequest` with
`ignoreCheck`. -/
theorem isResponseOfTarget_iff (recv req : arpDatagram) :
    (recv.IsResponseOfTarget req = true ↔ recv.oper = 2 ∧ recv.spa = req.tpa) ∧
      (recv.IsResponseOf req = true →
        recv.IsResponseOfTarget req = true ∧
        recv.IsResponseOfDADRequest req true = true) := by
  refine ⟨isResponseOfTarget_true_iff recv req, fun hm => ?_⟩
  obtain ⟨h1, h2, _⟩ := (isResponseOf_true_iff recv req).1 hm
  exact ⟨(isResponseOfTarget_true_iff recv req).2 ⟨h1, h2⟩,
    (isResponseOfDADRequest_true_iff recv req true).2 ⟨h1, h2, Or.inl rfl⟩⟩

theorem isResponseOfTarget_iff_witness :
    sampleResponse.IsResponseOfTarget sampleRequest = true ∧
      sampleResponse.IsResponseOfDADRequest sampleRequest true = true :=
  (isResponseOfTarget_iff sampleResponse sampleRequest).2 (by decide)

/-! ## Request construction -/

theorem to4_of_representable (ip : IP) (h : representableAsIPv4 ip) :
    IP.To4 ip = fourByteForm ip ∧ (fourByteForm ip).length = 4 := by
  rcases h with h4 | ⟨h16, hpre⟩
  · have e : fourByteForm ip = ip := by
      simp only [fourByteForm, h4, Nat.sub_self, List.drop_zero]
    rw [e]
    refine ⟨?_, h4⟩
    simp only [IP.To4, IPv4len, h4, beq_self_eq_true, if_true]
  · have hsplit : ip = v4InV6Prefix ++ ip.drop 12 := by
      rw [← hpre, List.take_append_drop]
    have hlen : (ip.drop 12).length = 4 := by
      rw [List.length_drop, h16]
    generalize ip.drop 12 = a at hsplit hlen
    subst hsplit
    have e : fourByteForm (v4InV6Prefix ++ a) = a := by
      simp only [fourByteForm, List.length_append, hlen, v4InV6Prefix, List.length_cons,
        List.length_nil]
      rfl
    rw [e]
    refine ⟨?_, hlen⟩
    simp [IP.To4, IPv4len, IPv6len, isZeros, v4InV6Prefix, hlen, List.take_of_length_le]

/-- C9 (request construction): for source and target addresses representable
as IPv4 (four bytes, or sixteen bytes in IPv4-mapped form), `newArpRequest` has
`htype = 1`, `ptype = 0x0800`, `hlen = 6`, `plen = 4`, `oper = 1`, `sha` and
`tha` the given hardware addresses, and `spa` and `tpa` the 4-byte forms of the
given addresses. -/
theorem newArpRequest_fields (srcHW dstHW : HardwareAddr) (srcIP dstIP : IP)
    (hs : representableAsIPv4 srcIP) (hd : representableAsIPv4 dstIP) :
    newArpRequest srcHW srcIP dstHW dstIP =
        { htype := 1, ptype := 0x0800, hlen := 6, plen := 4, oper := 1,
          sha := srcHW, spa := fourByteForm srcIP,
          tha := dstHW, tpa := fourByteForm dstIP } ∧
      (newArpRequest srcHW srcIP dstHW dstIP).spa.length = 4 ∧
      (newArpRequest srcHW srcIP dstHW dstIP).tpa.length = 4 := by
  have hs2 := to4_of_representable srcIP hs
  have hd2 := to4_of_representable dstIP hd
  simp only [newArpRequest, hs2.1, hd2.1, hs2.2, hd2.2, and_true]
  rfl

theorem newArpRequest_fields_witness :
    newArpRequest [0x02, 0x42, 0xac, 0x11, 0x00, 0x02]
        [0, 0, 0, 0, 0, 0, 0, 0, 0, 0, 0xff, 0xff, 192, 168, 1, 10]
        [0xff, 0xff, 0xff, 0xff, 0xff, 0xff] [192, 168, 1, 1] = sampleRequest :=
  (newArpRequest_fields _ _ _ _ (by decide) (by decide)).1

/-! ## The source-address resolver -/

theorem scanAddrs_first_match (dstIP : IP) (addrs : List Addr) :
    (∃ m, Addr.ipNet m ∈ addrs ∧ m.Contains dstIP = true) →
    ∀ (i : Nat) (firstIP : IP), ∃ pre n post,
      addrs = pre ++ Addr.ipNet n :: post ∧
      (∀ m, Addr.ipNet m ∈ pre → m.Contains dstIP = false) ∧
      n.Contains dstIP = true ∧
      scanAddrs dstIP i firstIP addrs = .returned n.IP := by
  induction addrs with
  | nil =>
    rintro ⟨m, hm, _⟩
    exact absurd hm (List.not_mem_nil _)
  | cons a rest ih =>
    rintro ⟨m, hm, hc⟩ i firstIP
    cases a with
    | ipAddr ip =>
      have hm2 : Addr.ipNet m ∈ rest := by
        rcases List.mem_cons.1 hm with h | h
        · exact absurd h (by simp)
        · exact h
      obtain ⟨pre, n, post, e, hpre, hn, hs⟩ := ih ⟨m, hm2, hc⟩ (i + 1) firstIP
      refine ⟨Addr.ipAddr ip :: pre, n, post, by rw [e]; rfl, ?_, hn, ?_⟩
      · intro k hk
        rcases List.mem_cons.1 hk with h | h
        · exact absurd h (by simp)
        · exact hpre k h
      · simp only [scanAddrs]
        exact hs
    | ipNet ipnet =>
      cases hcon : ipnet.Contains dstIP
      · have hm2 : Addr.ipNet m ∈ rest := by
          rcases List.mem_cons.1 hm with h | h
          · have : m = ipnet := by injection h
            rw [this, hcon] at hc
            exact absurd hc (by decide)
          · exact h
        obtain ⟨pre, n, post, e, hpre, hn, hs⟩ :=
          ih ⟨m, hm2, hc⟩ (i + 1) (if i == 0 then ipnet.IP else firstIP)
        refine ⟨Addr.ipNet ipnet :: pre, n, post, by rw [e]; rfl, ?_, hn, ?_⟩
        · intro k hk
          rcases List.mem_cons.1 hk with h | h
          · have : k = ipnet := by injection h
            rw [this]
            exact hcon
          · exact hpre k h
        · simp only [scanAddrs, hcon]
          exact hs
      · refine ⟨[], ipnet, rest, rfl, ?_, hcon, ?_⟩
        · intro k hk
          exact absurd hk (List.not_mem_nil _)
        · simp only [scanAddrs, hcon, if_true]

/-- C10 (source address, first match wins): when the interface lists its
address entries and one of them is an IP network containing the target,
`findIPInNetworkFromIface` succeeds, for both values of `ignoreNet`, with the
IP of the first such entry in list order: no IP network before it contains the
target. -/
theorem findIP_first_match (dstIP : IP) (iface : Interface) (ignoreNet : Bool)
    (addrs : List Addr) (haddrs : iface.Addrs = .ok addrs)
    (hex : ∃ m, Addr.ipNet m ∈ addrs ∧ m.Contains dstIP = true) :
    ∃ pre n post,
      addrs = pre ++ Addr.ipNet n :: post ∧
      (∀ m, Addr.ipNet m ∈ pre → m.Contains dstIP = false) ∧
      n.Contains dstIP = true ∧
      findIPInNetworkFromIface dstIP iface ignoreNet = .ok n.IP := by
  obtain ⟨pre, n, post, e, hpre, hn, hs⟩ := scanAddrs_first_match dstIP addrs hex 0 []
  refine ⟨pre, n, post, e, hpre, hn, ?_⟩
  have hne : (addrs.length == 0) = false := by
    rw [e]
    simp
  simp only [findIPInNetworkFromIface, haddrs, hne, hs]
  rfl

theorem findIP_first_match_witness :
    (∃ pre n post,
        sampleAddrs = pre ++ Addr.ipNet n :: post ∧
        (∀ m, Addr.ipNet m ∈ pre → m.Contains [10, 0, 0, 5] = false) ∧
        n.Contains [10, 0, 0, 5] = true ∧
        findIPInNetworkFromIface [10, 0, 0, 5] sampleIface false = .ok n.IP) ∧
      findIPInNetworkFromIface [10, 0, 0, 5] sampleIface false = .ok [10, 0, 0, 1] :=
  ⟨findIP_first_match [10, 0, 0, 5] sampleIface false sampleAddrs rfl
      ⟨sampleNetNarrow, by decide, by decide⟩,
    by decide⟩

theorem scanAddrs_no_match (dstIP : IP) (addrs : List Addr) :
    (∀ m, Addr.ipNet m ∈ addrs → m.Contains dstIP = false) →
    ∀ (i : Nat) (firstIP : IP),
      (∃ f, scanAddrs dstIP i firstIP addrs = .exhausted f) ∧
      (i ≠ 0 → scanAddrs dstIP i firstIP addrs = .exhausted firstIP) := by
  induction addrs with
  | nil =>
    intro _ i firstIP
    exact ⟨⟨firstIP, rfl⟩, fun _ => rfl⟩
  | cons a rest ih =>
    intro hnone i firstIP
    have hrest : ∀ m, Addr.ipNet m ∈ rest → m.Contains dstIP = false :=
      fun m hm => hnone m (List.mem_cons_of_mem _ hm)
    cases a with
    | ipAddr ip =>
      simp only [scanAddrs]
      exact ⟨(ih hrest (i + 1) firstIP).1, fun _ => (ih hrest (i + 1) firstIP).2 (by omega)⟩
    | ipNet ipnet =>
      have hc : ipnet.Contains dstIP = false := hnone ipnet (List.mem_cons_self _ _)
      simp only [scanAddrs, hc, Bool.false_eq_true, if_false]
      refine ⟨(ih hrest (i + 1) _).1, fun hi => ?_⟩
      have hi2 : (i == 0) = false := by
        simp only [beq_eq_false_iff_ne, ne_eq]
        exact hi
      rw [hi2]
      exact (ih hrest (i + 1) firstIP).2 (by omega)

theorem length_beq_zero_of_ne_nil (addrs : List Addr) (hne : addrs ≠ []) :
    (addrs.length == 0) = false := by
  cases addrs with
  | nil => exact absurd rfl hne
  | cons a rest => rfl

/-- C11 (fallback address), as amended: when the first address entry of the
interface is an IP network and no IP network among the entries contains the
target, `findIPInNetworkFromIface` with `ignoreNet = true` succeeds and returns
the IP of that first entry. -/
theorem findIP_fallback_first (dstIP : IP) (iface : Interface) (n : IPNet)
    (rest : List Addr) (haddrs : iface.Addrs = .ok (Addr.ipNet n :: rest))
    (hnone : ∀ m, Addr.ipNet m ∈ Addr.ipNet n :: rest → m.Contains dstIP = false) :
    findIPInNetworkFromIface dstIP iface true = .ok n.IP := by
  have hc : n.Contains dstIP = false := hnone n (List.mem_cons_self _ _)
  have hrest : ∀ m, Addr.ipNet m ∈ rest → m.Contains dstIP = false :=
    fun m hm => hnone m (List.mem_cons_of_mem _ hm)
  have hs : scanAddrs dstIP 0 [] (Addr.ipNet n :: rest) = .exhausted n.IP := by
    simp only [scanAddrs, hc, Bool.false_eq_true, if_false]
    exact (scanAddrs_no_match dstIP rest hrest 1 _).2 (by decide)
  simp only [findIPInNetworkFromIface, haddrs, hs]
  rfl

theorem findIP_fallback_first_witness :
    findIPInNetworkFromIface [8, 8, 8, 8] sampleFallbackIface true = .ok [10, 0, 0, 1] :=
  findIP_fallback_first [8, 8, 8, 8] sampleFallbackIface sampleNetTen
    [.ipNet sampleNetOther] rfl (by
      intro m hm
      simp only [List.mem_cons, Addr.ipNet.injEq, List.mem_singleton, List.not_mem_nil,
        or_false] at hm
      rcases hm with h | h <;> subst h <;> decide)

/-- C11, the claim as stated fails: the only address entry of
`sampleAnycastIface` is 10.0.0.9, which is not an IP network, so no network
contains 8.8.8.8; the call with `ignoreNet = true` succeeds, but with the nil
address instead of 10.0.0.9. -/
theorem findIP_fallback_counterexample :
    sampleAnycastIface.Addrs = .ok [.ipAddr [10, 0, 0, 9]] ∧
      Addr.entryIP (.ipAddr [10, 0, 0, 9]) = [10, 0, 0, 9] ∧
      findIPInNetworkFromIface [8, 8, 8, 8] sampleAnycastIface true = .ok [] ∧
      findIPInNetworkFromIface [8, 8, 8, 8] sampleAnycastIface true ≠
        .ok (Addr.entryIP (.ipAddr [10, 0, 0, 9])) := by
  refine ⟨rfl, rfl, ?_, ?_⟩ <;> decide

/-- C12 (unreachable interface): on an interface that lists at least one
address entry, `findIPInNetworkFromIface` with `ignoreNet = false` fails with
the "can't reach ip" error exactly when no address entry is an IP network
containing the target; it fails in no other way. -/
theorem findIP_unreachable_iff (dstIP : IP) (iface : Interface) (addrs : List Addr)
    (haddrs : iface.Addrs = .ok addrs) (hne : addrs ≠ []) :
    (findIPInNetworkFromIface dstIP iface false = .error (.cantReach iface.Name dstIP) ↔
        ¬ ∃ m, Addr.ipNet m ∈ addrs ∧ m.Contains dstIP = true) ∧
      (∀ err, findIPInNetworkFromIface dstIP iface false = .error err →
        err = .cantReach iface.Name dstIP) := by
  have hlen := length_beq_zero_of_ne_nil addrs hne
  by_cases hex : ∃ m, Addr.ipNet m ∈ addrs ∧ m.Contains dstIP = true
  · obtain ⟨pre, n, post, _, _, _, hs⟩ := scanAddrs_first_match dstIP addrs hex 0 []
    have hr : findIPInNetworkFromIface dstIP iface false = .ok n.IP := by
      simp only [findIPInNetworkFromIface, haddrs, hlen, hs]
      rfl
    rw [hr]
    refine ⟨⟨fun h => ?_, fun h => absurd hex h⟩, fun err h => ?_⟩
    · cases h
    · cases h
  · have hnone : ∀ m, Addr.ipNet m ∈ addrs → m.Contains dstIP = false := by
      intro m hm
      cases hc : m.Contains dstIP
      · rfl
      · exact absurd ⟨m, hm, hc⟩ hex
    obtain ⟨f, hs⟩ := (scanAddrs_no_match dstIP addrs hnone 0 []).1
    have hr : findIPInNetworkFromIface dstIP iface false =
        .error (.cantReach iface.Name dstIP) := by
      simp only [findIPInNetworkFromIface, haddrs, hlen, hs]
      rfl
    rw [hr]
    refine ⟨⟨fun _ => hex, fun _ => rfl⟩, fun err h => ?_⟩
    injection h with h
    exact h.symm

theorem findIP_unreachable_iff_witness :
    findIPInNetworkFromIface [8, 8, 8, 8] sampleFallbackIface false =
        .error (.cantReach "eth1" [8, 8, 8, 8]) ↔
      ¬ ∃ m, Addr.ipNet m ∈ [Addr.ipNet sampleNetTen, Addr.ipNet sampleNetOther] ∧
        m.Contains [8, 8, 8, 8] = true :=
  (findIP_unreachable_iff [8, 8, 8, 8] sampleFallbackIface
    [.ipNet sampleNetTen, .ipNet sampleNetOther] rfl (by decide)).1

/-- C13 (no address on interface): on an interface whose address list is
empty, `findIPInNetworkFromIface` fails with the "do not contains any ip" error
for both values of `ignoreNet`; and with `ignoreNet = true`, once the address
listing has succeeded, an empty list is the only way it fails. -/
theorem findIP_no_address (dstIP : IP) (iface : Interface) :
    (iface.Addrs = .ok [] →
        ∀ ignoreNet : Bool,
          findIPInNetworkFromIface dstIP iface ignoreNet = .error (.noIP iface.Name)) ∧
      (∀ addrs err, iface.Addrs = .ok addrs →
        findIPInNetworkFromIface dstIP iface true = .error err →
        addrs = [] ∧ err = .noIP iface.Name) := by
  refine ⟨fun haddrs ignoreNet => ?_, fun addrs err haddrs herr => ?_⟩
  · simp only [findIPInNetworkFromIface, haddrs]
    rfl
  · cases addrs with
    | nil =>
      simp only [findIPInNetworkFromIface, haddrs] at herr
      injection herr with herr
      exact ⟨rfl, herr.symm⟩
    | cons a rest =>
      exfalso
      have hlen : ((a :: rest).length == 0) = false := rfl
      simp only [findIPInNetworkFromIface, haddrs, hlen] at herr
      cases hs : scanAddrs dstIP 0 [] (a :: rest) with
      | returned ip =>
        rw [hs] at herr
        cases herr
      | exhausted f =>
        rw [hs] at herr
        cases herr

theorem findIP_no_address_witness :
    ∀ ignoreNet : Bool,
      findIPInNetworkFromIface [8, 8, 8, 8] sampleBareIface ignoreNet = .error (.noIP "lo9") :=
  (findIP_no_address [8, 8, 8, 8] sampleBareIface).1 rfl

/-! ## The interface resolver -/

theorem isDown_eq_false_iff (iface : Interface) : isDown iface = false ↔ flagUp iface := by
  unfold isDown flagUp
  rw [Nat.and_one_is_mod]
  simp only [beq_eq_false_iff_ne, ne_eq]
  omega

theorem hasAddressInNetwork_iff (dstIP : IP) (iface : Interface) :
    hasAddressInNetwork dstIP iface = true ↔ reaches dstIP iface := by
  unfold hasAddressInNetwork reaches
  cases h : findIPInNetworkFromIface dstIP iface false with
  | error e =>
    simp only [Bool.false_eq_true, false_iff]
    rintro ⟨ip, hip⟩
    cases hip
  | ok ip =>
    simp only [true_iff]
    exact ⟨ip, rfl⟩

theorem not_reaches_iff (dstIP : IP) (iface : Interface) :
    ¬ reaches dstIP iface ↔ ∃ err, findIPInNetworkFromIface dstIP iface false = .error err := by
  unfold reaches
  cases h : findIPInNetworkFromIface dstIP iface false with
  | error e =>
    refine ⟨fun _ => ⟨e, rfl⟩, fun _ hx => ?_⟩
    obtain ⟨ip, hip⟩ := hx
    cases hip
  | ok ip =>
    refine ⟨fun hx => absurd ⟨ip, rfl⟩ hx, fun hx => ?_⟩
    obtain ⟨e, he⟩ := hx
    cases he

theorem scanInterfaces_cons_pos (dstIP : IP) (iface : Interface) (rest : List Interface)
    (h : flagUp iface ∧ reaches dstIP iface) :
    scanInterfaces dstIP (iface :: rest) = .ok iface := by
  have hd := (isDown_eq_false_iff iface).2 h.1
  have ha := (hasAddressInNetwork_iff dstIP iface).2 h.2
  simp only [scanInterfaces, hd, ha, Bool.not_true, Bool.false_eq_true, if_false]

theorem scanInterfaces_cons_neg (dstIP : IP) (iface : Interface) (rest : List Interface)
    (h : ¬ (flagUp iface ∧ reaches dstIP iface)) :
    scanInterfaces dstIP (iface :: rest) = scanInterfaces dstIP rest := by
  cases hd : isDown iface
  · have hup := (isDown_eq_false_iff iface).1 hd
    have ha : hasAddressInNetwork dstIP iface = false := by
      cases hv : hasAddressInNetwork dstIP iface
      · rfl
      · exact absurd ⟨hup, (hasAddressInNetwork_iff dstIP iface).1 hv⟩ h
    simp only [scanInterfaces, hd, ha, Bool.not_false, Bool.false_eq_true, if_false, if_true]
  · simp only [scanInterfaces, hd, if_true]

theorem scanInterfaces_first (dstIP : IP) (pre : List Interface) (iface : Interface)
    (post : List Interface) (hpre : ∀ x ∈ pre, ¬ (flagUp x ∧ reaches dstIP x))
    (hup : flagUp iface) (hr : reaches dstIP iface) :
    scanInterfaces dstIP (pre ++ iface :: post) = .ok iface := by
  induction pre with
  | nil =>
    rw [List.nil_append, scanInterfaces_cons_pos dstIP iface post ⟨hup, hr⟩]
  | cons x pre ih =>
    rw [List.cons_append, scanInterfaces_cons_neg dstIP x _ (hpre x (List.mem_cons_self _ _))]
    exact ih (fun y hy => hpre y (List.mem_cons_of_mem _ hy))

theorem scanInterfaces_ok (dstIP : IP) (ifaces : List Interface) (iface : Interface)
    (h : scanInterfaces dstIP ifaces = .ok iface) :
    ∃ pre post, ifaces = pre ++ iface :: post ∧
      (∀ x ∈ pre, ¬ (flagUp x ∧ reaches dstIP x)) ∧ flagUp iface ∧ reaches dstIP iface := by
  induction ifaces with
  | nil => cases h
  | cons x rest ih =>
    by_cases hx : flagUp x ∧ reaches dstIP x
    · rw [scanInterfaces_cons_pos dstIP x rest hx] at h
      injection h with h
      subst h
      exact ⟨[], rest, rfl, fun y hy => absurd hy (List.not_mem_nil _), hx.1, hx.2⟩
    · rw [scanInterfaces_cons_neg dstIP x rest hx] at h
      obtain ⟨pre, post, e, hpre, hup, hr⟩ := ih h
      refine ⟨x :: pre, post, by rw [e]; rfl, ?_, hup, hr⟩
      intro y hy
      rcases List.mem_cons.1 hy with hy | hy
      · rw [hy]
        exact hx
      · exact hpre y hy

theorem scanInterfaces_error (dstIP : IP) (ifaces : List Interface) :
    (∀ x ∈ ifaces, ¬ (flagUp x ∧ reaches dstIP x)) →
      scanInterfaces dstIP ifaces = .error .noUsableInterface := by
  induction ifaces with
  | nil => exact fun _ => rfl
  | cons x rest ih =>
    intro hall
    rw [scanInterfaces_cons_neg dstIP x rest (hall x (List.mem_cons_self _ _))]
    exact ih (fun y hy => hall y (List.mem_cons_of_mem _ hy))

/-- C14 (resolver first-fit): when `findUsableInterfaceForNetwork` succeeds on
an enumerated list, the interface it returns is the first in enumeration order
that is up (flag bit 0 set) and on which `findIPInNetworkFromIface` with
`ignoreNet = false` succeeds; conversely the first such interface is what it
returns, whatever usable interfaces follow it and whatever their prefix
lengths. -/
theorem findUsable_first_fit (dstIP : IP) (ifaces : List Interface) (iface : Interface) :
    (findUsableInterfaceForNetwork dstIP (.ok ifaces) = .ok iface →
        ∃ pre post, ifaces = pre ++ iface :: post ∧
          (∀ x ∈ pre, ¬ (flagUp x ∧ reaches dstIP x)) ∧
          flagUp iface ∧ reaches dstIP iface) ∧
      (∀ pre post, ifaces = pre ++ iface :: post →
        (∀ x ∈ pre, ¬ (flagUp x ∧ reaches dstIP x)) →
        flagUp iface → reaches dstIP iface →
        findUsableInterfaceForNetwork dstIP (.ok ifaces) = .ok iface) := by
  refine ⟨fun h => scanInterfaces_ok dstIP ifaces iface h, ?_⟩
  intro pre post e hpre hup hr
  rw [e]
  exact scanInterfaces_first dstIP pre iface post hpre hup hr

theorem findUsable_first_fit_witness :
    findUsableInterfaceForNetwork [10, 0, 0, 5]
        (.ok [sampleDownIface, sampleWideIface, sampleNarrowIface]) = .ok sampleWideIface ∧
      reaches [10, 0, 0, 5] sampleNarrowIface ∧ flagUp sampleNarrowIface :=
  ⟨(findUsable_first_fit [10, 0, 0, 5] [sampleDownIface, sampleWideIface, sampleNarrowIface]
      sampleWideIface).2 [sampleDownIface] [sampleNarrowIface] rfl
      (by
        intro x hx
        rw [List.mem_singleton] at hx
        subst hx
        exact fun h => absurd h.1 (by decide))
      (by decide) ⟨[10, 0, 0, 1], by decide⟩,
    ⟨[10, 0, 0, 2], by decide⟩, by decide⟩

/-- C15 (exhaustion): on any enumerated list of interfaces, the empty one
included, `findUsableInterfaceForNetwork` fails with "no usable interface
found" exactly when every interface is down or `findIPInNetworkFromIface` with
`ignoreNet = false` fails on it. -/
theorem findUsable_exhausted_iff (dstIP : IP) (ifaces : List Interface) :
    findUsableInterfaceForNetwork dstIP (.ok ifaces) = .error .noUsableInterface ↔
      ∀ x ∈ ifaces, ¬ flagUp x ∨
        ∃ err, findIPInNetworkFromIface dstIP x false = .error err := by
  have hconv : ∀ x : Interface, (¬ flagUp x ∨
      ∃ err, findIPInNetworkFromIface dstIP x false = .error err) ↔
      ¬ (flagUp x ∧ reaches dstIP x) := by
    intro x
    rw [← not_reaches_iff]
    exact not_and_or.symm
  constructor
  · intro h x hx
    rw [hconv]
    intro hu
    obtain ⟨pre, post, e⟩ := List.append_of_mem hx
    clear hx
    induction ifaces generalizing pre with
    | nil => cases pre <;> cases e
    | cons y rest ih =>
      have h2 : scanInterfaces dstIP (y :: rest) = .error .noUsableInterface := h
      by_cases hy : flagUp y ∧ reaches dstIP y
      · rw [scanInterfaces_cons_pos dstIP y rest hy] at h2
        cases h2
      · rw [scanInterfaces_cons_neg dstIP y rest hy] at h2
        cases pre with
        | nil =>
          injection e with e1 _
          rw [e1] at hy
          exact hy hu
        | cons z pre =>
          injection e with _ e2
          exact ih h2 pre e2
  · intro hall
    exact scanInterfaces_error dstIP ifaces (fun x hx => (hconv x).1 (hall x hx))

theorem findUsable_exhausted_iff_witness :
    findUsableInterfaceForNetwork [8, 8, 8, 8] (.ok []) = .error .noUsableInterface ∧
      findUsableInterfaceForNetwork [8, 8, 8, 8]
        (.ok [sampleDownIface, sampleWideIface]) = .error .noUsableInterface :=
  ⟨(findUsable_exhausted_iff [8, 8, 8, 8] []).2 (fun x hx => absurd hx (List.not_mem_nil _)),
    (findUsable_exhausted_iff [8, 8, 8, 8] [sampleDownIface, sampleWideIface]).2 (by
      intro x hx
      simp only [List.mem_cons, List.mem_singleton, List.not_mem_nil, or_false] at hx
      rcases hx with h | h
      · subst h
        exact Or.inl (by decide)
      · subst h
        exact Or.inr ⟨.cantReach "eth4" [8, 8, 8, 8], by decide⟩)⟩

/-! ## Decoding short and long buffers -/

theorem parse_short (buf : List Byte) (h : buf.length < 8) :
    (parseArpDatagram buf).sha = [] ∧ (parseArpDatagram buf).spa = [] ∧
      (parseArpDatagram buf).tha = [] ∧ (parseArpDatagram buf).tpa = [] := by
  match buf, h with
  | [], _ => exact ⟨rfl, rfl, rfl, rfl⟩
  | [_], _ => exact ⟨rfl, rfl, rfl, rfl⟩
  | [_, _], _ => exact ⟨rfl, rfl, rfl, rfl⟩
  | [_, _, _], _ => exact ⟨rfl, rfl, rfl, rfl⟩
  | [_, _, _, _], _ => exact ⟨rfl, rfl, rfl, rfl⟩
  | [_, _, _, _, _], _ =>
    simp [parseArpDatagram, NewBuffer, binary.ReadUint16, binary.ReadUint8, ReadFull,
      Buffer.Len, arpDatagram.zero, next_eq]
  | [_, _, _, _, _, _], _ =>
    simp [parseArpDatagram, NewBuffer, binary.ReadUint16, binary.ReadUint8, ReadFull,
      Buffer.Len, arpDatagram.zero, next_eq]
  | [_, _, _, _, _, _, _], _ =>
    simp [parseArpDatagram, NewBuffer, binary.ReadUint16, binary.ReadUint8, ReadFull,
      Buffer.Len, arpDatagram.zero, next_eq]
  | _ :: _ :: _ :: _ :: _ :: _ :: _ :: _ :: _, h =>
    simp only [List.length_cons] at h
    omega

theorem addr_fields_concat (rest : List Byte) (h p : Nat) :
    rest.take h ++ (rest.drop h).take p ++ (((rest.drop h).drop p).take h ++
      ((((rest.drop h).drop p).drop h).take p)) = rest.take (h + p + h + p) := by
  rw [List.take_add rest (h + p + h) p, List.take_add rest (h + p) h, List.take_add rest h p]
  simp only [List.drop_drop, List.append_assoc]

theorem beBytes_uint16_pair (b0 b1 : Byte) : beBytes (BigEndian.Uint16 [b0, b1]) = [b0, b1] := by
  have hv := uint16_pair_val b0 b1
  have h0 := b0.isLt
  have h1 := b1.isLt
  simp only [beValue] at hv
  simp only [beBytes, hv]
  have e0 : b0.val = (b0.val * 256 + b1.val) / 256 := by omega
  have e1 : b1.val = (b0.val * 256 + b1.val) % 256 := by omega
  rw [List.cons.injEq, List.cons.injEq]
  exact ⟨Fin.ext e0.symm, Fin.ext e1.symm, rfl⟩

/-- Encoding what was decoded from a buffer of at least eight bytes. -/
theorem marshal_parse_cons8 (b0 b1 b2 b3 h p b6 b7 : Byte) (rest : List Byte) :
    (parseArpDatagram (b0 :: b1 :: b2 :: b3 :: h :: p :: b6 :: b7 :: rest)).Marshal =
      b0 :: b1 :: b2 :: b3 :: h :: p :: b6 :: b7 :: rest.take (h.val + p.val + h.val + p.val) := by
  rw [parse_cons8, marshal_eq]
  simp only [beBytes_uint16_pair, List.cons_append, List.nil_append, List.append_assoc]
  rw [← addr_fields_concat]
  simp only [List.append_assoc]

/-- C16 (truncated input), as amended: a buffer shorter than the 8-byte header
plus the four address fields its header declares is not rejected;
`parseArpDatagram` returns a datagram whose four address fields, in order, hold
exactly the bytes that follow the header, so fewer than the header declares. -/
theorem parse_truncated_returns (buf : List Byte) (h p : Nat)
    (hh : h = (byteAt buf 4).val) (hp : p = (byteAt buf 5).val)
    (hshort : buf.length < 8 + 2 * (h + p)) :
    (parseArpDatagram buf).sha ++ (parseArpDatagram buf).spa ++
        (parseArpDatagram buf).tha ++ (parseArpDatagram buf).tpa = buf.drop 8 ∧
      (parseArpDatagram buf).sha.length + (parseArpDatagram buf).spa.length +
        (parseArpDatagram buf).tha.length + (parseArpDatagram buf).tpa.length
          = buf.length - 8 := by
  by_cases h8 : 8 ≤ buf.length
  · obtain ⟨b0, b1, b2, b3, b4, b5, b6, b7, rest, rfl⟩ := exists_cons8 buf h8
    have hh2 : b4.val = h := hh.symm
    have hp2 : b5.val = p := hp.symm
    have hrest : rest.length < 2 * (h + p) := by
      simp only [List.length_cons] at hshort
      omega
    have hcat := addr_fields_concat rest h p
    rw [List.take_of_length_le (show rest.length ≤ h + p + h + p by omega)] at hcat
    simp only [List.append_assoc] at hcat
    have hl := congrArg List.length hcat
    simp only [List.length_append] at hl
    have hdrop : List.drop 8 (b0 :: b1 :: b2 :: b3 :: b4 :: b5 :: b6 :: b7 :: rest) = rest := rfl
    have hlen8 : (b0 :: b1 :: b2 :: b3 :: b4 :: b5 :: b6 :: b7 :: rest).length - 8
        = rest.length := by
      simp only [List.length_cons]
      omega
    rw [parse_cons8, hdrop, hlen8]
    simp only [hh2, hp2, List.append_assoc]
    refine ⟨hcat, ?_⟩
    omega
  · obtain ⟨e1, e2, e3, e4⟩ := parse_short buf (by omega)
    rw [e1, e2, e3, e4, List.drop_of_length_le (by omega)]
    simp only [List.append_nil, List.length_nil, true_and]
    omega

theorem parse_truncated_returns_witness :
    (parseArpDatagram sampleTruncated).sha ++ (parseArpDatagram sampleTruncated).spa ++
        (parseArpDatagram sampleTruncated).tha ++ (parseArpDatagram sampleTruncated).tpa =
      sampleTruncated.drop 8 :=
  (parse_truncated_returns sampleTruncated 6 4 rfl rfl (by decide)).1

/-- C16, the claim as stated fails: `sampleTruncated` holds 20 bytes although
its header declares 8 + 2 * (6 + 4) = 28, and `parseArpDatagram` returns a
datagram for it, with a two-byte `tha` and an empty `tpa`. -/
theorem parse_truncated_counterexample :
    sampleTruncated.length <
        8 + 2 * ((byteAt sampleTruncated 4).val + (byteAt sampleTruncated 5).val) ∧
      parseArpDatagram sampleTruncated =
        { htype := 1, ptype := 0x0800, hlen := 6, plen := 4, oper := 1,
          sha := [0x02, 0x42, 0xac, 0x11, 0x00, 0x02], spa := [192, 168, 1, 10],
          tha := [0xff, 0xff], tpa := [] } := by
  constructor <;> decide

/-- C17 (wire size): for six-byte hardware addresses and addresses
representable as IPv4, the `Marshal` encoding of `newArpRequest` is exactly 28
bytes long and its `MarshalWithEthernetHeader` encoding exactly 42. -/
theorem newArpRequest_wire_size (srcHW dstHW : HardwareAddr) (srcIP dstIP : IP)
    (hsrc : srcHW.length = 6) (hdst : dstHW.length = 6)
    (hs : representableAsIPv4 srcIP) (hd : representableAsIPv4 dstIP) :
    (newArpRequest srcHW srcIP dstHW dstIP).Marshal.length = 28 ∧
      (newArpRequest srcHW srcIP dstHW dstIP).MarshalWithEthernetHeader.length = 14 + 28 := by
  have hs2 := to4_of_representable srcIP hs
  have hd2 := to4_of_representable dstIP hd
  have hm : (newArpRequest srcHW srcIP dstHW dstIP).Marshal.length = 28 := by
    rw [marshal_eq]
    simp only [List.length_append, beBytes_length, List.length_cons, List.length_nil,
      newArpRequest, hs2.1, hd2.1, hs2.2, hd2.2, hsrc, hdst]
  refine ⟨hm, ?_⟩
  simp only [arpDatagram.MarshalWithEthernetHeader, List.nil_append, List.length_append, hm,
    List.length_cons, List.length_nil]
  simp only [newArpRequest, hsrc, hdst]

theorem newArpRequest_wire_size_witness :
    (newArpRequest [0x02, 0x42, 0xac, 0x11, 0x00, 0x02] [192, 168, 1, 10]
        [0xff, 0xff, 0xff, 0xff, 0xff, 0xff]
        [0, 0, 0, 0, 0, 0, 0, 0, 0, 0, 0xff, 0xff, 192, 168, 1, 1]).Marshal.length = 28 ∧
      (newArpRequest [0x02, 0x42, 0xac, 0x11, 0x00, 0x02] [192, 168, 1, 10]
        [0xff, 0xff, 0xff, 0xff, 0xff, 0xff]
        [0, 0, 0, 0, 0, 0, 0, 0, 0, 0, 0xff, 0xff, 192, 168, 1, 1]).MarshalWithEthernetHeader.length
          = 14 + 28 :=
  newArpRequest_wire_size _ _ _ _ rfl rfl (by decide) (by decide)

theorem take_cons8 (b0 b1 b2 b3 b4 b5 b6 b7 : Byte) (rest : List Byte) (n k : Nat)
    (hn : n = 8 + k) :
    List.take n (b0 :: b1 :: b2 :: b3 :: b4 :: b5 :: b6 :: b7 :: rest) =
      b0 :: b1 :: b2 :: b3 :: b4 :: b5 :: b6 :: b7 :: rest.take k := by
  subst hn
  rw [Nat.add_comm]
  rfl

/-- C18 (unchecked decode): `parseArpDatagram` is a total function, and on
every buffer no address field is longer than its declared length; on a buffer
of at least eight bytes the decoded datagram satisfies the data-model
invariant exactly when the buffer holds `8 + 2 * (hlen + plen)` bytes, and on a
shorter one each address field gets the lesser of its declared length and the
bytes still remaining, so that at least one field is shorter than declared. -/
theorem parse_unchecked (buf : List Byte) :
    ((parseArpDatagram buf).sha.length ≤ (parseArpDatagram buf).hlen.val ∧
        (parseArpDatagram buf).spa.length ≤ (parseArpDatagram buf).plen.val ∧
        (parseArpDatagram buf).tha.length ≤ (parseArpDatagram buf).hlen.val ∧
        (parseArpDatagram buf).tpa.length ≤ (parseArpDatagram buf).plen.val) ∧
      (8 ≤ buf.length →
        (lengthsAsDeclared (parseArpDatagram buf) ↔
          8 + 2 * ((parseArpDatagram buf).hlen.val + (parseArpDatagram buf).plen.val)
            ≤ buf.length) ∧
        (buf.length <
            8 + 2 * ((parseArpDatagram buf).hlen.val + (parseArpDatagram buf).plen.val) →
          (parseArpDatagram buf).sha.length =
              min (parseArpDatagram buf).hlen.val (buf.length - 8) ∧
            (parseArpDatagram buf).spa.length =
              min (parseArpDatagram buf).plen.val
                (buf.length - 8 - (parseArpDatagram buf).sha.length) ∧
            (parseArpDatagram buf).tha.length =
              min (parseArpDatagram buf).hlen.val
                (buf.length - 8 - (parseArpDatagram buf).sha.length
                  - (parseArpDatagram buf).spa.length) ∧
            (parseArpDatagram buf).tpa.length =
              min (parseArpDatagram buf).plen.val
                (buf.length - 8 - (parseArpDatagram buf).sha.length
                  - (parseArpDatagram buf).spa.length - (parseArpDatagram buf).tha.length) ∧
            ((parseArpDatagram buf).sha.length < (parseArpDatagram buf).hlen.val ∨
              (parseArpDatagram buf).spa.length < (parseArpDatagram buf).plen.val ∨
              (parseArpDatagram buf).tha.length < (parseArpDatagram buf).hlen.val ∨
              (parseArpDatagram buf).tpa.length < (parseArpDatagram buf).plen.val))) := by
  by_cases h8 : 8 ≤ buf.length
  · obtain ⟨b0, b1, b2, b3, b4, b5, b6, b7, rest, rfl⟩ := exists_cons8 buf h8
    rw [parse_cons8]
    simp only [lengthsAsDeclared, List.length_take, List.length_drop, List.length_cons]
    refine ⟨by omega, fun _ => ⟨?_, fun hs => ?_⟩⟩
    · constructor
      · intro hinv
        omega
      · intro hlen
        omega
    · omega
  · obtain ⟨e1, e2, e3, e4⟩ := parse_short buf (by omega)
    rw [e1, e2, e3, e4]
    simp only [List.length_nil, Nat.zero_le, and_self, true_and]
    exact fun h => absurd h h8

theorem parse_unchecked_witness :
    lengthsAsDeclared (parseArpDatagram sampleWire) ∧
      ¬ lengthsAsDeclared (parseArpDatagram sampleTruncated) ∧
      (parseArpDatagram sampleTruncated).tha.length = 2 :=
  ⟨((parse_unchecked sampleWire).2 (by decide)).1.2 (by decide),
    fun h => absurd (((parse_unchecked sampleTruncated).2 (by decide)).1.1 h) (by decide),
    by decide⟩

/-- C19 (re-encoding a decoded frame): for a buffer of at least eight bytes,
`Marshal` of `parseArpDatagram buf` is the prefix of `buf` of length
`min(len(buf), 8 + 2 * (buf[4] + buf[5]))`; so a buffer of exactly the declared
size is reproduced, and the bytes after the fourth address field are dropped. -/
theorem marshal_parse_take (buf : List Byte) (h8 : 8 ≤ buf.length) :
    (parseArpDatagram buf).Marshal =
        buf.take (min buf.length (8 + 2 * ((byteAt buf 4).val + (byteAt buf 5).val))) ∧
      (buf.length = 8 + 2 * ((byteAt buf 4).val + (byteAt buf 5).val) →
        (parseArpDatagram buf).Marshal = buf) ∧
      (∀ frame padding : List Byte, buf = frame ++ padding →
        frame.length = 8 + 2 * ((byteAt buf 4).val + (byteAt buf 5).val) →
        (parseArpDatagram buf).Marshal = frame) := by
  have key : (parseArpDatagram buf).Marshal =
      buf.take (8 + 2 * ((byteAt buf 4).val + (byteAt buf 5).val)) := by
    obtain ⟨b0, b1, b2, b3, b4, b5, b6, b7, rest, rfl⟩ := exists_cons8 buf h8
    rw [marshal_parse_cons8]
    simp only [byteAt, List.getD_cons_zero, List.getD_cons_succ]
    rw [take_cons8 b0 b1 b2 b3 b4 b5 b6 b7 rest _ (2 * (b4.val + b5.val)) rfl]
    have e : b4.val + b5.val + b4.val + b5.val = 2 * (b4.val + b5.val) := by omega
    rw [e]
  refine ⟨?_, fun hexact => ?_, fun frame padding hsplit hframe => ?_⟩
  · rw [key]
    by_cases hle : 8 + 2 * ((byteAt buf 4).val + (byteAt buf 5).val) ≤ buf.length
    · rw [Nat.min_eq_right hle]
    · rw [Nat.min_eq_left (by omega), List.take_of_length_le (Nat.le_refl _),
        List.take_of_length_le (by omega)]
  · rw [key, List.take_of_length_le (by omega)]
  · rw [key, ← hframe]
    conv_lhs => rw [hsplit]
    exact List.take_left' rfl

theorem marshal_parse_take_witness :
    (parseArpDatagram sampleWire).Marshal = sampleRequest.Marshal ∧
      (parseArpDatagram sampleTruncated).Marshal = sampleTruncated :=
  ⟨(marshal_parse_take sampleWire (by decide)).2.2 sampleRequest.Marshal [0, 0, 0]
      (by decide) (by decide),
    by
      have h := (marshal_parse_take sampleTruncated (by decide)).1
      rw [h]
      decide⟩

/-- C20 (classifier inputs): each of `IsResponseOf`, `IsResponseOfTarget`,
`IsDuplicateRequestOf` and `IsResponseOfDADRequest` depends only on `recv.oper`,
`recv.spa`, `recv.tpa`, `req.spa`, `req.tpa` and `ignoreCheck`: two pairs that
agree on these get the same answer from each predicate, whatever their other
fields. -/
theorem classifier_inputs (recv req recv2 req2 : arpDatagram) (ignoreCheck : Bool)
    (hoper : recv.oper = recv2.oper) (hspa : recv.spa = recv2.spa)
    (htpa : recv.tpa = recv2.tpa) (hrspa : req.spa = req2.spa) (hrtpa : req.tpa = req2.tpa) :
    recv.IsResponseOf req = recv2.IsResponseOf req2 ∧
      recv.IsResponseOfTarget req = recv2.IsResponseOfTarget req2 ∧
      recv.IsDuplicateRequestOf req ignoreCheck =
        recv2.IsDuplicateRequestOf req2 ignoreCheck ∧
      recv.IsResponseOfDADRequest req ignoreCheck =
        recv2.IsResponseOfDADRequest req2 ignoreCheck := by
  simp only [arpDatagram.IsResponseOf, arpDatagram.IsResponseOfTarget,
    arpDatagram.IsDuplicateRequestOf, arpDatagram.IsResponseOfDADRequest,
    hoper, hspa, htpa, hrspa, hrtpa, and_self]

theorem classifier_inputs_witness :
    sampleResponse.IsResponseOf sampleRequest =
        sampleResponseAlt.IsResponseOf sampleRequestAlt ∧
      sampleResponse.IsResponseOfTarget sampleRequest =
        sampleResponseAlt.IsResponseOfTarget sampleRequestAlt ∧
      sampleResponse.IsDuplicateRequestOf sampleRequest false =
        sampleResponseAlt.IsDuplicateRequestOf sampleRequestAlt false ∧
      sampleResponse.IsResponseOfDADRequest sampleRequest false =
        sampleResponseAlt.IsResponseOfDADRequest sampleRequestAlt false :=
  classifier_inputs sampleResponse sampleRequest sampleResponseAlt sampleRequestAlt false
    rfl rfl rfl rfl rfl

end arping
